import Mathlib

/-!
Verification of the ERP incident-assignment backend.

This file gives a shallow embedding, in Lean 4, of the parts of the backend
that the checked properties talk about:

* `app/models/incident.py` — the incident data model (enums and records);
* `app/services/enrichment_service.py` — the rule-based enrichment service
  (severity/category keyword classification, summary, suggested action);
* `app/repositories/vector_repository.py` — the in-memory vector repository
  (embedding storage, the resolved-incident candidate cache with its 5-minute
  TTL, and cosine-similarity search with threshold/sort/limit);
* `app/services/rag_enrichment_service.py` — the RAG enrichment orchestrator
  (routing policy, rule-based fallback, similarity-weighted majority vote,
  action suggestion from similar incidents).

Modelling conventions:

* Python floats (similarity scores, embedding coordinates) are modelled as
  rationals `ℚ`; the cosine-similarity computation itself (numpy/sklearn,
  involving square roots) is kept abstract as a parameter
  `sim : List ℚ → List ℚ → ℚ`.  All checked properties of `find_similar`
  are independent of the concrete score values.
* Wall-clock time is an abstract natural-number instant passed to every
  operation that reads `datetime.now()`.
* Python dictionaries are modelled as association lists in insertion order,
  which is exactly the iteration order Python guarantees.
* Code that can raise (the OpenAI embedding / LLM calls, the whole RAG
  branch guarded by `try/except`) is modelled by an `Except Unit _`
  parameter describing the outcome of the external call.
-/

/-! ## Data model (`app/models/incident.py`) -/

inductive IncidentStatus where
  | OPEN | IN_PROGRESS | RESOLVED | CLOSED
deriving DecidableEq, Inhabited

inductive Severity where
  | P1 | P2 | P3
deriving DecidableEq, Inhabited

inductive Category where
  | CONFIGURATION_ISSUE | DATA_ISSUE | INTEGRATION_FAILURE | SECURITY_ACCESS | UNKNOWN
deriving DecidableEq, Inhabited

/-- `IncidentCreate` (pydantic model): the fields of a new incident.
`erp_module` and `environment` are enums in the source; only `title` and
`description` are ever inspected by the enrichment logic, so the two enum
fields are carried as plain strings here, as pydantic also does for
`IncidentResponse`. -/
structure IncidentCreate where
  title : String
  description : String
  erp_module : String
  environment : String
  business_unit : String
deriving DecidableEq, Inhabited

/-- `IncidentResponse` (pydantic model).  `created_at`/`updated_at` are
abstract instants. -/
structure IncidentResponse where
  id : String
  title : String
  description : String
  erp_module : String
  environment : String
  business_unit : String
  severity : Severity
  category : Category
  status : IncidentStatus
  created_at : Nat
  updated_at : Nat
  summary : Option String
  suggested_action : Option String
deriving DecidableEq, Inhabited

/-! ## String helpers

Python's `needle in haystack` substring test and `str.lower`, `str.strip`,
slicing, modelled on lists of characters. -/

/-- `needle.isPrefixOf hay || needle occurs in the tail of hay`:
the Python substring test `needle in hay` on character lists.  An empty
needle occurs in every string, as in Python. -/
def hasInfix (hay needle : List Char) : Bool :=
  match hay with
  | [] => needle.isEmpty
  | _ :: t => needle.isPrefixOf hay || hasInfix t needle

/-- Python `needle in hay` for strings. -/
def containsStr (hay needle : String) : Bool :=
  hasInfix hay.toList needle.toList

/-- Python `str.strip()`: drop whitespace from both ends. -/
def stripChars (l : List Char) : List Char :=
  ((l.dropWhile Char.isWhitespace).reverse.dropWhile Char.isWhitespace).reverse

/-! ## Rule-based enrichment (`app/services/enrichment_service.py`) -/

/-- `EnrichmentService.P1_KEYWORDS`. -/
def P1_KEYWORDS : List String :=
  ["critical", "down", "outage", "stuck", "blocked", "cannot process",
   "complete failure", "system down", "not working", "broken",
   "urgent", "emergency", "production down", "all users affected"]

/-- `EnrichmentService.P2_KEYWORDS`. -/
def P2_KEYWORDS : List String :=
  ["slow", "delay", "performance", "lagging", "timeout", "intermittent",
   "some users", "degraded", "partial", "reduced functionality"]

def INTEGRATION_KEYWORDS : List String :=
  ["integration", "api", "webhook", "connection", "sync", "import",
   "export", "interface", "endpoint", "service", "external system"]

def SECURITY_KEYWORDS : List String :=
  ["access", "permission", "authentication", "authorization", "login",
   "password", "credential", "security", "unauthorized", "forbidden",
   "user cannot", "locked out", "access denied"]

def DATA_KEYWORDS : List String :=
  ["data", "duplicate", "missing", "incorrect", "wrong", "corrupt",
   "invalid", "error in data", "data mismatch", "record", "transaction"]

def CONFIGURATION_KEYWORDS : List String :=
  ["configuration", "config", "setting", "setup", "parameter",
   "misconfigured", "wrong setting", "incorrect config"]

/-- `EnrichmentService.CATEGORY_KEYWORDS`: a `Dict[Category, list]`, whose
iteration order is its insertion order — Integration, Security, Data,
Configuration. -/
def CATEGORY_KEYWORDS : List (Category × List String) :=
  [(Category.INTEGRATION_FAILURE, INTEGRATION_KEYWORDS),
   (Category.SECURITY_ACCESS, SECURITY_KEYWORDS),
   (Category.DATA_ISSUE, DATA_KEYWORDS),
   (Category.CONFIGURATION_ISSUE, CONFIGURATION_KEYWORDS)]

/-- `EnrichmentService._normalize_text`: lowercase the text
(`str.lower()`, character by character). -/
def normalize_text (text : String) : String :=
  String.mk (text.toList.map Char.toLower)

/-- The normalized combined text `f"{incident.title} {incident.description}"`
shared by `determine_severity` and `determine_category`. -/
def combinedNormalized (incident : IncidentCreate) : String :=
  normalize_text (incident.title ++ " " ++ incident.description)

/-- Does any keyword of the list occur in the (already normalized) text?
This is the inner `for keyword in keywords: if keyword in normalized` loop. -/
def matchesKeywords (keywords : List String) (normalized : String) : Bool :=
  keywords.any (fun kw => containsStr normalized kw)

/-- `EnrichmentService.determine_severity`. -/
def determine_severity (incident : IncidentCreate) : Severity :=
  let normalized := combinedNormalized incident
  if matchesKeywords P1_KEYWORDS normalized then Severity.P1
  else if matchesKeywords P2_KEYWORDS normalized then Severity.P2
  else Severity.P3

/-- `EnrichmentService.determine_category`: first category in the
`CATEGORY_KEYWORDS` iteration order with a keyword occurring in the
normalized combined text, `UNKNOWN` if none. -/
def determine_category (incident : IncidentCreate) : Category :=
  let normalized := combinedNormalized incident
  match CATEGORY_KEYWORDS.find? (fun p => matchesKeywords p.2 normalized) with
  | some p => p.1
  | none => Category.UNKNOWN

/-- `description.split('.')[0].strip()`: the characters before the first
`'.'` (the whole string when there is none), stripped of surrounding
whitespace. -/
def firstSentenceOf (description : String) : String :=
  String.mk (stripChars (description.toList.takeWhile (fun c => c ≠ '.')))

/-- `EnrichmentService.generate_summary`:
`f"{title}: {first sentence}"`, the first sentence replaced by its first 97
characters plus `"..."` when its length exceeds 100. -/
def generate_summary (incident : IncidentCreate) : String :=
  let description_first_sentence := firstSentenceOf incident.description
  let description_first_sentence :=
    if 100 < description_first_sentence.length then
      String.mk (description_first_sentence.toList.take 97) ++ "..."
    else description_first_sentence
  incident.title ++ ": " ++ description_first_sentence

/-- `EnrichmentService.suggest_action`. -/
def suggest_action (incident : IncidentCreate) (category : Category)
    (severity : Severity) : String :=
  if severity = Severity.P1 then
    "Immediate escalation required. Contact on-call engineer."
  else if category = Category.INTEGRATION_FAILURE then
    "Check integration logs and verify external system connectivity."
  else if category = Category.SECURITY_ACCESS then
    "Review user permissions and verify access configuration."
  else if category = Category.DATA_ISSUE then
    "Investigate data integrity and verify transaction logs."
  else if category = Category.CONFIGURATION_ISSUE then
    "Review system configuration settings and compare with baseline."
  else
    "Review incident details and assign to appropriate team."

/-! ## In-memory vector repository (`app/repositories/vector_repository.py`)

`InMemoryVectorRepository` holds two dictionaries (embeddings and metadata,
modelled as association lists in insertion order) and a cached list of
resolved incidents together with its capture timestamp.  The backing
incident repository (`incident_repo.list_all(limit=10000, status=...)`) is
abstracted as a function `fetch : String → List IncidentResponse` from a
status value to the fetched page; each operation that reads
`datetime.now()` receives the current instant `now : Nat` (in seconds). -/

/-- Python `dict.get(key)` on an association list: the value at the first
matching key. -/
def lookupKey {β : Type} (l : List (String × β)) (key : String) : Option β :=
  match l with
  | [] => none
  | (k, v) :: rest => if k = key then some v else lookupKey rest key

/-- Python `dict[key] = value`: replace the value at an existing key in
place, append a new key at the end (dicts preserve insertion order). -/
def storeKey {β : Type} (l : List (String × β)) (key : String) (value : β) :
    List (String × β) :=
  match l with
  | [] => [(key, value)]
  | (k, v) :: rest =>
    if k = key then (k, value) :: rest else (k, v) :: storeKey rest key value

/-- Python `dict.pop(key, None)`: drop the entry at the key, no error when
absent. -/
def popKey {β : Type} (l : List (String × β)) (key : String) :
    List (String × β) :=
  match l with
  | [] => []
  | (k, v) :: rest => if k = key then rest else (k, v) :: popKey rest key

/-- Metadata dictionaries are stored but never read by any verified
operation; string-to-string maps are enough. -/
abbrev Metadata := List (String × String)

/-- The mutable state of an `InMemoryVectorRepository`. -/
structure VectorState where
  embeddings : List (String × List ℚ)
  metadata : List (String × Metadata)
  resolved_incidents_cache : Option (List IncidentResponse)
  cache_timestamp : Option Nat
deriving DecidableEq, Inhabited

/-- `InMemoryVectorRepository.__init__`: empty stores, no cache. -/
def initVectorState : VectorState :=
  { embeddings := [], metadata := [],
    resolved_incidents_cache := none, cache_timestamp := none }

/-- `self._cache_ttl = timedelta(minutes=5)`, in seconds. -/
def CACHE_TTL : Nat := 300

/-- `InMemoryVectorRepository.add_embedding`: store embedding and metadata,
invalidate the resolved-incident cache (the timestamp is left as is). -/
def add_embedding (s : VectorState) (incident_id : String)
    (embedding : List ℚ) (metadata : Metadata) : VectorState :=
  { s with
    embeddings := storeKey s.embeddings incident_id embedding,
    metadata := storeKey s.metadata incident_id metadata,
    resolved_incidents_cache := none }

/-- `InMemoryVectorRepository.get_embedding`. -/
def get_embedding (s : VectorState) (incident_id : String) : Option (List ℚ) :=
  lookupKey s.embeddings incident_id

/-- `InMemoryVectorRepository.remove_embedding`: `pop(key, None)` on both
dictionaries, invalidate the cache. -/
def remove_embedding (s : VectorState) (incident_id : String) : VectorState :=
  { s with
    embeddings := popKey s.embeddings incident_id,
    metadata := popKey s.metadata incident_id,
    resolved_incidents_cache := none }

/-- The cache-freshness test of `_get_resolved_incidents`:
`cache is not None and timestamp is not None and now - timestamp < ttl`. -/
def cacheValid (s : VectorState) (now : Nat) : Bool :=
  match s.resolved_incidents_cache, s.cache_timestamp with
  | some _, some ts => now - ts < CACHE_TTL
  | _, _ => false

/-- Result of `_get_resolved_incidents`: the candidate list, the updated
repository state, and whether the incident store was queried (`fetched` is
the observable "cache rebuilt" event; the Python method has this effect
implicitly). -/
structure ResolvedFetch where
  incidents : List IncidentResponse
  state : VectorState
  fetched : Bool
deriving DecidableEq

/-- `InMemoryVectorRepository._get_resolved_incidents`: return the cache
when fresh; otherwise fetch resolved incidents from the incident store,
keep those with embeddings, and cache the list with the current time. -/
def get_resolved_incidents (fetch : String → List IncidentResponse)
    (now : Nat) (s : VectorState) : ResolvedFetch :=
  match s.resolved_incidents_cache, s.cache_timestamp with
  | some cache, some ts =>
    if now - ts < CACHE_TTL then ⟨cache, s, false⟩
    else
      let resolved := fetch "resolved"
      let incidents_with_embeddings :=
        resolved.filter (fun inc => (lookupKey s.embeddings inc.id).isSome)
      ⟨incidents_with_embeddings,
       { s with resolved_incidents_cache := some incidents_with_embeddings,
                cache_timestamp := some now }, true⟩
  | _, _ =>
    let resolved := fetch "resolved"
    let incidents_with_embeddings :=
      resolved.filter (fun inc => (lookupKey s.embeddings inc.id).isSome)
    ⟨incidents_with_embeddings,
     { s with resolved_incidents_cache := some incidents_with_embeddings,
              cache_timestamp := some now }, true⟩

/-- `min_similarity = 0.7` (`mkRat 7 10 = 0.7`, written so that the kernel
can evaluate comparisons against it). -/
def MIN_SIMILARITY : ℚ := mkRat 7 10

/-- Stable insertion of index `i` into an index list sorted ascending by
score: `i` goes after every index with a score `≤` its own.  Together with
`argsortAsc` this models `np.argsort(similarities)` (ascending, stable). -/
def insSorted (scores : List ℚ) (i : Nat) : List Nat → List Nat
  | [] => [i]
  | j :: js =>
    if scores.getD i 0 < scores.getD j 0 then i :: j :: js
    else j :: insSorted scores i js

/-- `np.argsort(similarities)`: the indices `0, ..., n-1` sorted ascending
by score, equal scores kept in index order (stable). -/
def argsortAsc (scores : List ℚ) : List Nat :=
  (List.range scores.length).foldl (fun acc i => insSorted scores i acc) []

/-- The result-collection loop of `find_similar`:
`for idx in similar_indices: if similarities[idx] >= min_similarity and
len(results) < limit: results.append(...)`, here running over the
candidate/score pairs already brought into `similar_indices` order. -/
def selectLoop (limit : Nat) :
    List (IncidentResponse × ℚ) → List (IncidentResponse × ℚ) →
    List (IncidentResponse × ℚ)
  | [], results => results
  | p :: rest, results =>
    if MIN_SIMILARITY ≤ p.2 ∧ results.length < limit then
      selectLoop limit rest (results ++ [p])
    else
      selectLoop limit rest results

/-- Lines 168–185 of `vector_repository.py`: score-sort the scored
candidates descending (`np.argsort(...)[::-1]`), then collect results at or
above the threshold up to `limit`. -/
def rankAndSelect (scored : List (IncidentResponse × ℚ)) (limit : Nat) :
    List (IncidentResponse × ℚ) :=
  let similarities := scored.map (fun p => p.2)
  let similar_indices := (argsortAsc similarities).reverse
  let ordered := similar_indices.map (fun i => scored.getD i (default, 0))
  selectLoop limit ordered []

/-- Result of `find_similar`: the scored results, the updated state, and
whether the incident store was queried during the call. -/
structure SimQuery where
  results : List (IncidentResponse × ℚ)
  state : VectorState
  fetched : Bool
deriving DecidableEq

/-- `InMemoryVectorRepository.find_similar`.  `sim` abstracts
`sklearn cosine_similarity` of the query against one candidate embedding;
`filters` models the optional `{"status": ...}` dictionary (`none` = no
filters argument). -/
def find_similar (sim : List ℚ → List ℚ → ℚ)
    (fetch : String → List IncidentResponse) (now : Nat) (s : VectorState)
    (query_embedding : List ℚ) (limit : Nat) (filters : Option String) :
    SimQuery :=
  let status_filter := filters.getD "resolved"
  let fetchRes :=
    if status_filter = "resolved" then get_resolved_incidents fetch now s
    else
      -- fetch from the repository and keep those with embeddings
      ⟨(fetch status_filter).filter
         (fun inc => (lookupKey s.embeddings inc.id).isSome), s, true⟩
  let candidates := fetchRes.incidents
  let s1 := fetchRes.state
  if candidates.isEmpty then ⟨[], s1, fetchRes.fetched⟩
  else
    -- pair each candidate having an embedding with that embedding
    let candidate_pairs := candidates.filterMap
      (fun inc => (lookupKey s1.embeddings inc.id).map (fun e => (inc, e)))
    if candidate_pairs.isEmpty then ⟨[], s1, fetchRes.fetched⟩
    else
      let scored := candidate_pairs.map (fun p => (p.1, sim query_embedding p.2))
      ⟨rankAndSelect scored limit, s1, fetchRes.fetched⟩

/-! ## RAG enrichment orchestrator (`app/services/rag_enrichment_service.py`)

`RAGEnrichmentService` composes the rule-based service, the embedding
service and the vector repository.  The embedding service performs a
network call and can raise; its outcome enters the model as
`Except Unit (List ℚ)`.  The whole `_enrich_with_rag` branch sits inside a
`try/except` in `enrich_incident`; its outcome enters the model as
`Except Unit EnrichmentResult` (`.error` = any exception raised anywhere on
the retrieval-augmented path).  `settings.rag_force_all` is the boolean
parameter `rag_force_all`. -/

/-- The dictionary produced by `_enrich_rule_based`. -/
structure RuleResult where
  severity : Severity
  category : Category
  summary : String
  suggested_action : String
deriving DecidableEq, Inhabited

/-- `RAGEnrichmentService._enrich_rule_based`. -/
def _enrich_rule_based (incident : IncidentCreate) : RuleResult :=
  let severity := determine_severity incident
  let category := determine_category incident
  let summary := generate_summary incident
  let suggested_action := suggest_action incident category severity
  ⟨severity, category, summary, suggested_action⟩

/-- One entry of the `similar_incidents` list of an enrichment result
(id, title, category, severity, rounded similarity score). -/
structure SimilarBrief where
  id : String
  title : String
  category : Category
  severity : Severity
  similarity_score : ℚ
deriving DecidableEq, Inhabited

/-- The dictionary returned by `enrich_incident`: severity, category,
summary, suggested action, the enrichment-method tag and the (possibly
empty) list of similar incidents. -/
structure EnrichmentResult where
  severity : Severity
  category : Category
  summary : String
  suggested_action : String
  enrichment_method : String
  similar_incidents : List SimilarBrief
deriving DecidableEq, Inhabited

/-- `RAGEnrichmentService._should_use_rag`: the routing decision, returned
together with the repository state after the (possible) trial lookup.
`embedOutcome` is the outcome of
`embedding_service.generate_incident_embedding(title, description)`;
`Except.error` covers the `except Exception: return False` branch. -/
def _should_use_rag (sim : List ℚ → List ℚ → ℚ)
    (fetch : String → List IncidentResponse) (now : Nat) (s : VectorState)
    (rag_force_all : Bool) (incident : IncidentCreate)
    (rule_result : RuleResult) (embedOutcome : Except Unit (List ℚ)) :
    Bool × VectorState :=
  if rag_force_all then (true, s)
  else if rule_result.category = Category.UNKNOWN then (true, s)
  else if incident.description.length < 50 then (true, s)
  else
    match embedOutcome with
    | Except.error _ => (false, s)
    | Except.ok query_embedding =>
      let q := find_similar sim fetch now s query_embedding 1 (some "resolved")
      (decide (0 < q.results.length), q.state)

/-- `RAGEnrichmentService.enrich_incident`: rule-based result first; route;
on the RAG path return the RAG result as is, or, when the RAG branch raised
(`ragOutcome = .error`), the rule-based result tagged
`"rule_based_fallback"` with no similar incidents.  The function is total:
no exception ever escapes. -/
def enrich_incident (sim : List ℚ → List ℚ → ℚ)
    (fetch : String → List IncidentResponse) (now : Nat) (s : VectorState)
    (rag_force_all : Bool) (incident : IncidentCreate)
    (embedOutcome : Except Unit (List ℚ))
    (ragOutcome : Except Unit EnrichmentResult) : EnrichmentResult :=
  let rule_result := _enrich_rule_based incident
  let decision :=
    _should_use_rag sim fetch now s rag_force_all incident rule_result embedOutcome
  if decision.1 then
    match ragOutcome with
    | Except.ok rag_result => rag_result
    | Except.error _ =>
      ⟨rule_result.severity, rule_result.category, rule_result.summary,
       rule_result.suggested_action, "rule_based_fallback", []⟩
  else
    ⟨rule_result.severity, rule_result.category, rule_result.summary,
     rule_result.suggested_action, "rule_based", []⟩

/-- Python `counts[k] = counts.get(k, 0) + w` on an insertion-ordered
dictionary: add `w` at an existing key in place, append a new key. -/
def addWeight {K : Type} [DecidableEq K] :
    List (K × ℚ) → K → ℚ → List (K × ℚ)
  | [], k, w => [(k, w)]
  | (a, v) :: rest, k, w =>
    if a = k then (a, v + w) :: rest else (a, v) :: addWeight rest k w

/-- The count dictionaries of `_classify_by_majority_vote`: one pass over
the key/weight pairs, accumulating weights per key. -/
def tally {K : Type} [DecidableEq K] (pairs : List (K × ℚ)) : List (K × ℚ) :=
  pairs.foldl (fun m p => addWeight m p.1 p.2) []

/-- Python `max(items, key=lambda x: x[1])`: fold keeping the current
maximum, replacing it only on a strictly larger value — so the first
maximal item of the iteration wins ties. -/
def maxBySnd {K : Type} : (K × ℚ) → List (K × ℚ) → (K × ℚ)
  | best, [] => best
  | best, p :: rest => maxBySnd (if best.2 < p.2 then p else best) rest

/-- `max(counts.items(), key=lambda x: x[1])[0]`.  `dflt` is returned on an
empty dictionary; the source never reaches that case (Python `max` would
raise there). -/
def pickMaxKey {K : Type} (counts : List (K × ℚ)) (dflt : K) : K :=
  match counts with
  | [] => dflt
  | x :: xs => (maxBySnd x xs).1

/-- `RAGEnrichmentService._classify_by_majority_vote`.  The single Python
loop feeds two independent dictionaries; here each is built by its own
pass over the same (key, score) pairs. -/
def _classify_by_majority_vote (similar_incidents : List (IncidentResponse × ℚ))
    (rule_result : RuleResult) : Severity × Category :=
  if similar_incidents.isEmpty then (rule_result.severity, rule_result.category)
  else
    let severity_counts :=
      tally (similar_incidents.map (fun p => (p.1.severity, p.2)))
    let category_counts :=
      tally (similar_incidents.map (fun p => (p.1.category, p.2)))
    (pickMaxKey severity_counts rule_result.severity,
     pickMaxKey category_counts rule_result.category)

/-- The `actions` list of `_generate_action_from_similar`:
`[inc.suggested_action for inc, score in similar_incidents if
inc.suggested_action]` — Python truthiness drops both `None` and `""`. -/
def actionsOf (similar_incidents : List (IncidentResponse × ℚ)) : List String :=
  similar_incidents.filterMap (fun p =>
    match p.1.suggested_action with
    | some a => if a = "" then none else some a
    | none => none)

/-- `max(iterable, key=actions.count)`: fold keeping the current maximum,
replacing it only on a strictly larger count. -/
def maxByCount (actions : List String) : String → List String → String
  | best, [] => best
  | best, a :: rest =>
    maxByCount actions (if actions.count best < actions.count a then a else best) rest

/-- `RAGEnrichmentService._generate_action_from_similar`.  The source
computes `max(set(actions), key=actions.count)`; the iteration order of a
Python `set` of strings is determined by string hashes (randomized per
process) and is NOT the order of first occurrence.  `setOrder` is that
enumeration order: any duplicate-free listing of the distinct actions. -/
def _generate_action_from_similar (severity : Severity) (category : Category)
    (similar_incidents : List (IncidentResponse × ℚ)) (fallback_action : String)
    (setOrder : List String) : String :=
  if similar_incidents.isEmpty then fallback_action
  else
    let actions := actionsOf similar_incidents
    if actions.isEmpty then fallback_action
    else
      let most_common :=
        match setOrder with
        | [] => fallback_action  -- unreachable: a nonempty list has a nonempty set
        | a :: rest => maxByCount actions a rest
      most_common ++ " (Based on " ++ toString similar_incidents.length ++
        " similar resolved incidents)"

/-! ## Concrete instances used by witnesses and counterexamples -/

/-- A concrete `IncidentCreate` with the given title and description. -/
def mkIncident (title description : String) : IncidentCreate :=
  ⟨title, description, "AP", "Prod", "Finance"⟩

/-- A concrete resolved incident with the given id and timestamp. -/
def sampleResolved (id : String) (t : Nat) : IncidentResponse :=
  ⟨id, "t", "d", "AP", "Prod", "BU", Severity.P1, Category.INTEGRATION_FAILURE,
   IncidentStatus.RESOLVED, t, t, none, some "act"⟩

/-- A constant similarity oracle. -/
def simConst : List ℚ → List ℚ → ℚ := fun _ _ => 1

/-- An incident store that returns no incidents for any status. -/
def fetchEmpty : String → List IncidentResponse := fun _ => []

/-- An incident store holding the two resolved incidents `"a"` and `"b"`,
in that retrieval order. -/
def fetchAB : String → List IncidentResponse :=
  fun _ => [sampleResolved "a" 0, sampleResolved "b" 1]

/-- Repository state with embeddings stored for `"a"` and `"b"`. -/
def stateAB : VectorState :=
  add_embedding (add_embedding initVectorState "a" [1] []) "b" [1] []

/-! ## Helper lemmas -/

/-- `popKey` at an absent key changes nothing. -/
theorem popKey_of_absent {β : Type} (l : List (String × β)) (key : String)
    (h : lookupKey l key = none) : popKey l key = l := by
  induction l with
  | nil => rfl
  | cons p rest ih =>
    obtain ⟨k, v⟩ := p
    simp only [lookupKey] at h
    by_cases hk : k = key
    · rw [if_pos hk] at h
      exact Option.noConfusion h
    · rw [if_neg hk] at h
      simp only [popKey]
      rw [if_neg hk, ih h]

/-- A cache set to `none` always makes `_get_resolved_incidents` query the
incident store. -/
theorem get_resolved_fetches_of_cache_none
    (fetch : String → List IncidentResponse) (now : Nat) (s : VectorState)
    (h : s.resolved_incidents_cache = none) :
    (get_resolved_incidents fetch now s).fetched = true := by
  unfold get_resolved_incidents
  rw [h]

/-- Under the resolved status filter, `find_similar` queries the incident
store exactly when `_get_resolved_incidents` does, and leaves exactly the
state `_get_resolved_incidents` leaves. -/
theorem find_similar_resolved_effects (sim : List ℚ → List ℚ → ℚ)
    (fetch : String → List IncidentResponse) (now : Nat) (s : VectorState)
    (q : List ℚ) (limit : Nat) (filters : Option String)
    (hf : filters.getD "resolved" = "resolved") :
    (find_similar sim fetch now s q limit filters).fetched =
      (get_resolved_incidents fetch now s).fetched ∧
    (find_similar sim fetch now s q limit filters).state =
      (get_resolved_incidents fetch now s).state := by
  simp only [find_similar, hf, if_pos]
  constructor <;> (split <;> first | rfl | (split <;> rfl))

/-- `lookupKey` succeeds exactly on the stored keys. -/
theorem lookupKey_isSome_iff {β : Type} (l : List (String × β)) (key : String) :
    (lookupKey l key).isSome = true ↔ key ∈ l.map Prod.fst := by
  induction l with
  | nil => simp [lookupKey]
  | cons p rest ih =>
    obtain ⟨k, v⟩ := p
    by_cases hk : k = key
    · subst hk
      simp [lookupKey]
    · simp [lookupKey, hk, ih, Ne.symm hk]

/-! ## C9 — summary generation -/

/-- **C9.** For every incident the generated summary is the title, a colon
and a space, then the first sentence of the description
(`split('.')[0].strip()`); the first sentence is replaced by its first 97
characters followed by an ellipsis exactly when it is longer than the 100
characters of that truncated replacement (`len > 100` in the source). -/
theorem c9_generate_summary_spec (incident : IncidentCreate) :
    ((firstSentenceOf incident.description).length ≤ 100 →
      generate_summary incident =
        incident.title ++ ": " ++ firstSentenceOf incident.description) ∧
    (100 < (firstSentenceOf incident.description).length →
      generate_summary incident =
        incident.title ++ ": " ++
          (String.mk ((firstSentenceOf incident.description).toList.take 97) ++ "...")) := by
  constructor
  · intro h
    simp only [generate_summary]
    rw [if_neg (by omega)]
  · intro h
    simp only [generate_summary]
    rw [if_pos h]

/-- Witness for C9 at a concrete incident (short first sentence). -/
theorem c9_generate_summary_witness :
    generate_summary (mkIncident "T" "A b. C") =
      (mkIncident "T" "A b. C").title ++ ": " ++
        firstSentenceOf (mkIncident "T" "A b. C").description :=
  (c9_generate_summary_spec (mkIncident "T" "A b. C")).1 (by decide)

/-! ## C7 — category priority order -/

/-- **C7.** The rule classifier's category is the first category in the
fixed priority order Integration, Security, Data, Configuration whose
keyword set matches the lowercased combined title-and-description text; a
text with an Integration match resolves to Integration whatever else
matches (in particular when a Security keyword also matches), and a text
matching no keyword set resolves to Unknown. -/
theorem c7_determine_category_spec (incident : IncidentCreate) :
    (determine_category incident =
      (if matchesKeywords INTEGRATION_KEYWORDS (combinedNormalized incident) then
        Category.INTEGRATION_FAILURE
       else if matchesKeywords SECURITY_KEYWORDS (combinedNormalized incident) then
        Category.SECURITY_ACCESS
       else if matchesKeywords DATA_KEYWORDS (combinedNormalized incident) then
        Category.DATA_ISSUE
       else if matchesKeywords CONFIGURATION_KEYWORDS (combinedNormalized incident) then
        Category.CONFIGURATION_ISSUE
       else Category.UNKNOWN)) ∧
    (matchesKeywords INTEGRATION_KEYWORDS (combinedNormalized incident) = true →
      determine_category incident = Category.INTEGRATION_FAILURE) ∧
    ((∀ kws ∈ CATEGORY_KEYWORDS.map Prod.snd,
        matchesKeywords kws (combinedNormalized incident) = false) →
      determine_category incident = Category.UNKNOWN) := by
  have hmain : determine_category incident =
      (if matchesKeywords INTEGRATION_KEYWORDS (combinedNormalized incident) then
        Category.INTEGRATION_FAILURE
       else if matchesKeywords SECURITY_KEYWORDS (combinedNormalized incident) then
        Category.SECURITY_ACCESS
       else if matchesKeywords DATA_KEYWORDS (combinedNormalized incident) then
        Category.DATA_ISSUE
       else if matchesKeywords CONFIGURATION_KEYWORDS (combinedNormalized incident) then
        Category.CONFIGURATION_ISSUE
       else Category.UNKNOWN) := by
    unfold determine_category
    cases h1 : matchesKeywords INTEGRATION_KEYWORDS (combinedNormalized incident) <;>
    cases h2 : matchesKeywords SECURITY_KEYWORDS (combinedNormalized incident) <;>
    cases h3 : matchesKeywords DATA_KEYWORDS (combinedNormalized incident) <;>
    cases h4 : matchesKeywords CONFIGURATION_KEYWORDS (combinedNormalized incident) <;>
    simp [CATEGORY_KEYWORDS, List.find?, h1, h2, h3, h4]
  refine ⟨hmain, fun hint => ?_, fun hnone => ?_⟩
  · rw [hmain, if_pos hint]
  · have hI := hnone INTEGRATION_KEYWORDS (by simp [CATEGORY_KEYWORDS])
    have hS := hnone SECURITY_KEYWORDS (by simp [CATEGORY_KEYWORDS])
    have hD := hnone DATA_KEYWORDS (by simp [CATEGORY_KEYWORDS])
    have hC := hnone CONFIGURATION_KEYWORDS (by simp [CATEGORY_KEYWORDS])
    rw [hmain]
    simp [hI, hS, hD, hC]

/-- Witness for C7: a text with both an Integration keyword (`api`) and a
Security keyword (`password`) resolves to Integration. -/
theorem c7_determine_category_witness :
    matchesKeywords INTEGRATION_KEYWORDS
        (combinedNormalized (mkIncident "Api password" "x")) = true ∧
    matchesKeywords SECURITY_KEYWORDS
        (combinedNormalized (mkIncident "Api password" "x")) = true ∧
    determine_category (mkIncident "Api password" "x") =
      Category.INTEGRATION_FAILURE :=
  ⟨by decide, by decide,
   (c7_determine_category_spec (mkIncident "Api password" "x")).2.1 (by decide)⟩

/-! ## C10 — removing an absent embedding -/

/-- **C10.** `remove_embedding` on an identifier with no stored embedding
leaves both dictionaries unchanged (it is a total function, so no exception
is possible), yet still sets the resolved-incident cache to `None`, so the
next resolved-filter query rebuilds the candidate list from the incident
store.  `hwf` is the representation invariant that the two dictionaries
always hold the same keys (they are only ever written together). -/
theorem c10_remove_embedding_absent (s : VectorState) (incident_id : String)
    (hwf : s.embeddings.map Prod.fst = s.metadata.map Prod.fst)
    (h : lookupKey s.embeddings incident_id = none) :
    (remove_embedding s incident_id).embeddings = s.embeddings ∧
    (remove_embedding s incident_id).metadata = s.metadata ∧
    (remove_embedding s incident_id).resolved_incidents_cache = none ∧
    (∀ (sim : List ℚ → List ℚ → ℚ) (fetch : String → List IncidentResponse)
        (now : Nat) (q : List ℚ) (limit : Nat) (filters : Option String),
      filters.getD "resolved" = "resolved" →
      (find_similar sim fetch now (remove_embedding s incident_id) q limit
        filters).fetched = true) := by
  have hm : lookupKey s.metadata incident_id = none := by
    cases hmeta : lookupKey s.metadata incident_id with
    | none => rfl
    | some v =>
      have hmem : incident_id ∈ s.metadata.map Prod.fst :=
        (lookupKey_isSome_iff s.metadata incident_id).mp (by rw [hmeta]; rfl)
      rw [← hwf] at hmem
      have := (lookupKey_isSome_iff s.embeddings incident_id).mpr hmem
      rw [h] at this
      exact Bool.noConfusion this
  refine ⟨popKey_of_absent _ _ h, popKey_of_absent _ _ hm, rfl, ?_⟩
  intro sim fetch now q limit filters hf
  rw [(find_similar_resolved_effects sim fetch now _ q limit filters hf).1]
  exact get_resolved_fetches_of_cache_none fetch now _ rfl

/-- Witness for C10 at a concrete state and an identifier never stored. -/
theorem c10_remove_embedding_witness :
    (remove_embedding stateAB "zzz").embeddings = stateAB.embeddings ∧
    (find_similar simConst fetchEmpty 7 (remove_embedding stateAB "zzz")
      [1] 5 (some "resolved")).fetched = true :=
  ⟨(c10_remove_embedding_absent stateAB "zzz" (by decide) (by decide)).1,
   (c10_remove_embedding_absent stateAB "zzz" (by decide) (by decide)).2.2.2
     simConst fetchEmpty 7 [1] 5 (some "resolved") (by decide)⟩

/-! ## C1 — total enrichment with rule-based fallback -/

/-- **C1.** `enrich_incident` is a total function (its Lean type returns an
`EnrichmentResult` outright, mirroring that every exception of the RAG
branch is caught), and whenever the routing decision escalates and the
retrieval-augmented branch raises (`ragOutcome = .error`), the returned
result carries exactly the rule-based severity, category, summary and
suggested action, tagged `"rule_based_fallback"`, with an empty
`similar_incidents` list. -/
theorem c1_enrich_incident_fallback (sim : List ℚ → List ℚ → ℚ)
    (fetch : String → List IncidentResponse) (now : Nat) (s : VectorState)
    (rag_force_all : Bool) (incident : IncidentCreate)
    (embedOutcome : Except Unit (List ℚ)) (e : Unit)
    (h : (_should_use_rag sim fetch now s rag_force_all incident
            (_enrich_rule_based incident) embedOutcome).1 = true) :
    enrich_incident sim fetch now s rag_force_all incident embedOutcome
        (Except.error e) =
      ⟨(_enrich_rule_based incident).severity,
       (_enrich_rule_based incident).category,
       (_enrich_rule_based incident).summary,
       (_enrich_rule_based incident).suggested_action,
       "rule_based_fallback", []⟩ := by
  simp only [enrich_incident]
  rw [if_pos h]

/-- Witness for C1: with `rag_force_all` set the routing escalates, and a
raising RAG branch yields the rule-based fallback result. -/
theorem c1_enrich_incident_witness :
    enrich_incident simConst fetchEmpty 0 initVectorState true
        (mkIncident "T" "D") (Except.error ()) (Except.error ()) =
      ⟨(_enrich_rule_based (mkIncident "T" "D")).severity,
       (_enrich_rule_based (mkIncident "T" "D")).category,
       (_enrich_rule_based (mkIncident "T" "D")).summary,
       (_enrich_rule_based (mkIncident "T" "D")).suggested_action,
       "rule_based_fallback", []⟩ :=
  c1_enrich_incident_fallback simConst fetchEmpty 0 initVectorState true
    (mkIncident "T" "D") (Except.error ()) () (by decide)

/-! ## C4 — the routing decision -/

/-- **C4.** `_should_use_rag` returns `true` exactly when the force-all
flag is set, or the rule category is Unknown, or the description is
shorter than 50 characters, or the embedding call succeeded and the trial
`find_similar` lookup (limit 1, resolved filter) returned at least one
neighbor; when one of the first three checks fires the trial lookup is
never performed (state unchanged); and when the embedding call raises and
none of the first three checks fires, the decision is `false`. -/
theorem c4_should_use_rag_spec (sim : List ℚ → List ℚ → ℚ)
    (fetch : String → List IncidentResponse) (now : Nat) (s : VectorState)
    (rag_force_all : Bool) (incident : IncidentCreate)
    (rule_result : RuleResult) (embedOutcome : Except Unit (List ℚ)) :
    ((_should_use_rag sim fetch now s rag_force_all incident rule_result
        embedOutcome).1 = true ↔
      rag_force_all = true ∨ rule_result.category = Category.UNKNOWN ∨
        incident.description.length < 50 ∨
        ∃ q, embedOutcome = Except.ok q ∧
          (find_similar sim fetch now s q 1 (some "resolved")).results ≠ []) ∧
    ((rag_force_all = true ∨ rule_result.category = Category.UNKNOWN ∨
        incident.description.length < 50) →
      (_should_use_rag sim fetch now s rag_force_all incident rule_result
        embedOutcome).2 = s) ∧
    (∀ e, embedOutcome = Except.error e →
      rag_force_all = false → rule_result.category ≠ Category.UNKNOWN →
      ¬ incident.description.length < 50 →
      (_should_use_rag sim fetch now s rag_force_all incident rule_result
        embedOutcome).1 = false) := by
  unfold _should_use_rag
  by_cases h1 : rag_force_all = true <;>
  by_cases h2 : rule_result.category = Category.UNKNOWN <;>
  by_cases h3 : incident.description.length < 50 <;>
  cases embedOutcome <;>
  simp [h1, h2, h3, List.length_pos]

/-- A concrete rule result with a known (non-Unknown) category. -/
def ruleKnown : RuleResult :=
  ⟨Severity.P3, Category.INTEGRATION_FAILURE, "s", "a"⟩

/-- A concrete incident whose description has at least 50 characters. -/
def incLong : IncidentCreate :=
  mkIncident "Routine request"
    "this description is definitely long enough for the length check to pass"

/-- Witness for C4: no force-all, known category, long description, and a
raising embedding call — the decision is `false`. -/
theorem c4_should_use_rag_witness :
    (_should_use_rag simConst fetchEmpty 0 initVectorState false incLong
      ruleKnown (Except.error ())).1 = false :=
  (c4_should_use_rag_spec simConst fetchEmpty 0 initVectorState false incLong
    ruleKnown (Except.error ())).2.2 () rfl rfl (by decide) (by decide)

/-! ## Ordering facts about `argsortAsc` (for C2 and C6)

`np.argsort` sorts ascending and keeps equal keys in index order; the
relation `ltKey` is the strict lexicographic (score, index) order that the
produced index list satisfies pairwise. -/

/-- Index `i` precedes index `j` after an ascending stable argsort: smaller
score, or equal score and smaller index. -/
def ltKey (scores : List ℚ) (i j : Nat) : Prop :=
  scores.getD i 0 < scores.getD j 0 ∨
    (scores.getD i 0 = scores.getD j 0 ∧ i < j)

theorem insSorted_mem (scores : List ℚ) (i : Nat) (acc : List Nat) (k : Nat) :
    k ∈ insSorted scores i acc ↔ k = i ∨ k ∈ acc := by
  induction acc with
  | nil => simp [insSorted]
  | cons j js ih =>
    simp only [insSorted]
    split
    · simp [List.mem_cons]
    · simp only [List.mem_cons, ih]
      tauto

theorem insSorted_perm (scores : List ℚ) (i : Nat) (acc : List Nat) :
    List.Perm (insSorted scores i acc) (i :: acc) := by
  induction acc with
  | nil => exact List.Perm.refl _
  | cons j js ih =>
    simp only [insSorted]
    split
    · exact List.Perm.refl _
    · exact (List.Perm.cons j ih).trans (List.Perm.swap i j js)

theorem insSorted_pairwise (scores : List ℚ) (i : Nat) (acc : List Nat)
    (hp : acc.Pairwise (ltKey scores)) (hlt : ∀ j ∈ acc, j < i) :
    (insSorted scores i acc).Pairwise (ltKey scores) := by
  induction acc with
  | nil => simp [insSorted]
  | cons j js ih =>
    rw [List.pairwise_cons] at hp
    obtain ⟨hj, hjs⟩ := hp
    simp only [insSorted]
    split
    · rename_i hlt2
      refine List.Pairwise.cons ?_ (List.Pairwise.cons hj hjs)
      intro k hk
      rcases List.mem_cons.mp hk with rfl | hk2
      · exact Or.inl hlt2
      · rcases hj k hk2 with h | ⟨h, _⟩
        · exact Or.inl (lt_trans hlt2 h)
        · exact Or.inl (h ▸ hlt2)
    · rename_i hge
      refine List.Pairwise.cons ?_
        (ih hjs (fun x hx => hlt x (List.mem_cons_of_mem j hx)))
      intro k hk
      rcases (insSorted_mem scores i js k).mp hk with rfl | hk2
      · rcases lt_or_eq_of_le (not_lt.mp hge) with h | h
        · exact Or.inl h
        · exact Or.inr ⟨h, hlt j (List.mem_cons_self j js)⟩
      · exact hj k hk2

theorem foldl_insSorted_perm (scores : List ℚ) (l : List Nat) : ∀ acc,
    List.Perm (l.foldl (fun a i => insSorted scores i a) acc) (l ++ acc) := by
  induction l with
  | nil => intro acc; simp
  | cons i l ih =>
    intro acc
    simp only [List.foldl_cons]
    exact ((ih (insSorted scores i acc)).trans
      (List.Perm.append_left l (insSorted_perm scores i acc))).trans
      List.perm_middle

theorem foldl_insSorted_pairwise (scores : List ℚ) (l : List Nat) : ∀ acc,
    acc.Pairwise (ltKey scores) → (∀ j ∈ acc, ∀ i ∈ l, j < i) →
    l.Pairwise (· < ·) →
    (l.foldl (fun a i => insSorted scores i a) acc).Pairwise (ltKey scores) := by
  induction l with
  | nil =>
    intro acc hp _ _
    simpa using hp
  | cons i l ih =>
    intro acc hp hacc hl
    rw [List.pairwise_cons] at hl
    obtain ⟨hil, hl2⟩ := hl
    simp only [List.foldl_cons]
    apply ih (insSorted scores i acc)
    · exact insSorted_pairwise scores i acc hp
        (fun j hj => hacc j hj i (List.mem_cons_self i l))
    · intro j hj i' hi'
      rcases (insSorted_mem scores i acc j).mp hj with rfl | hj2
      · exact hil i' hi'
      · exact hacc j hj2 i' (List.mem_cons_of_mem i hi')
    · exact hl2

theorem argsortAsc_pairwise (scores : List ℚ) :
    (argsortAsc scores).Pairwise (ltKey scores) := by
  unfold argsortAsc
  exact foldl_insSorted_pairwise scores (List.range scores.length) []
    List.Pairwise.nil (by simp) (List.pairwise_lt_range _)

theorem argsortAsc_perm (scores : List ℚ) :
    List.Perm (argsortAsc scores) (List.range scores.length) := by
  unfold argsortAsc
  simpa using foldl_insSorted_perm scores (List.range scores.length) []

/-- The collection loop takes exactly the first `limit` of the
above-threshold entries, in iteration order. -/
theorem selectLoop_eq (limit : Nat) (l : List (IncidentResponse × ℚ)) :
    ∀ acc, selectLoop limit l acc =
      acc ++ (l.filter (fun p => decide (MIN_SIMILARITY ≤ p.2))).take
        (limit - acc.length) := by
  induction l with
  | nil => intro acc; simp [selectLoop]
  | cons p rest ih =>
    intro acc
    simp only [selectLoop]
    by_cases hthr : MIN_SIMILARITY ≤ p.2
    · by_cases hlen : acc.length < limit
      · rw [if_pos ⟨hthr, hlen⟩, ih]
        have h1 : limit - acc.length = (limit - (acc ++ [p]).length) + 1 := by
          simp only [List.length_append, List.length_singleton]
          omega
        rw [List.filter_cons_of_pos (by simp [hthr]), h1, List.take_succ_cons]
        simp
      · rw [if_neg (fun hc => hlen hc.2), ih]
        have h0 : limit - acc.length = 0 := by omega
        simp [h0]
    · rw [if_neg (fun hc => hthr hc.1), ih,
        List.filter_cons_of_neg (by simp [hthr])]

theorem rankAndSelect_eq (scored : List (IncidentResponse × ℚ)) (limit : Nat) :
    rankAndSelect scored limit =
      (((argsortAsc (scored.map (fun p => p.2))).reverse.map
          (fun i => scored.getD i (default, 0))).filter
        (fun p => decide (MIN_SIMILARITY ≤ p.2))).take limit := by
  unfold rankAndSelect
  rw [selectLoop_eq]
  simp

theorem getD_map_snd (l : List (IncidentResponse × ℚ)) : ∀ i : Nat,
    (l.map (fun p => p.2)).getD i 0 = (l.getD i (default, 0)).2 := by
  induction l with
  | nil => intro i; simp [List.getD]
  | cons p rest ih =>
    intro i
    cases i with
    | zero => simp [List.getD]
    | succ n => simpa [List.getD] using ih n

/-- The candidates, brought into `argsort`-descending order, have pairwise
non-increasing scores. -/
theorem ordered_pairwise (scored : List (IncidentResponse × ℚ)) :
    ((argsortAsc (scored.map (fun p => p.2))).reverse.map
        (fun i => scored.getD i (default, 0))).Pairwise
      (fun a b => b.2 ≤ a.2) := by
  rw [List.pairwise_map, List.pairwise_reverse]
  refine List.Pairwise.imp ?_
    (argsortAsc_pairwise (scored.map (fun p => p.2)))
  intro i j hij
  show (scored.getD i (default, 0)).2 ≤ (scored.getD j (default, 0)).2
  rcases hij with h | ⟨h, _⟩
  · have := le_of_lt h
    rw [getD_map_snd, getD_map_snd] at this
    exact this
  · rw [getD_map_snd, getD_map_snd] at h
    exact le_of_eq h

/-- Threshold, order and size of the ranked selection. -/
theorem rankAndSelect_spec (scored : List (IncidentResponse × ℚ)) (limit : Nat) :
    (∀ p ∈ rankAndSelect scored limit, MIN_SIMILARITY ≤ p.2) ∧
    (rankAndSelect scored limit).Pairwise (fun a b => b.2 ≤ a.2) ∧
    (rankAndSelect scored limit).length ≤ limit := by
  rw [rankAndSelect_eq]
  refine ⟨?_, ?_, ?_⟩
  · intro p hp
    have h1 := List.mem_of_mem_take hp
    have h2 := List.mem_filter.mp h1
    exact of_decide_eq_true h2.2
  · exact (ordered_pairwise scored).sublist
      ((List.take_sublist _ _).trans (List.filter_sublist _))
  · exact List.length_take_le _ _

/-- `find_similar` returns either no results or a ranked selection. -/
theorem find_similar_results_shape (sim : List ℚ → List ℚ → ℚ)
    (fetch : String → List IncidentResponse) (now : Nat) (s : VectorState)
    (q : List ℚ) (limit : Nat) (filters : Option String) :
    (find_similar sim fetch now s q limit filters).results = [] ∨
    ∃ scored, (find_similar sim fetch now s q limit filters).results =
      rankAndSelect scored limit := by
  simp only [find_similar]
  repeat' split
  all_goals first
    | (left; rfl)
    | (right; exact ⟨_, rfl⟩)

/-! ## C2 — threshold, descending order and size of `find_similar` results -/

/-- **C2.** For every similarity oracle, incident store, instant, index
state, query embedding, limit and filters, every returned pair of
`find_similar` scores at least `MIN_SIMILARITY = 0.7`, the returned list
has pairwise non-increasing scores, and its length is at most `limit`. -/
theorem c2_find_similar_spec (sim : List ℚ → List ℚ → ℚ)
    (fetch : String → List IncidentResponse) (now : Nat) (s : VectorState)
    (q : List ℚ) (limit : Nat) (filters : Option String) :
    (∀ p ∈ (find_similar sim fetch now s q limit filters).results,
      MIN_SIMILARITY ≤ p.2) ∧
    (find_similar sim fetch now s q limit filters).results.Pairwise
      (fun a b => b.2 ≤ a.2) ∧
    (find_similar sim fetch now s q limit filters).results.length ≤ limit := by
  rcases find_similar_results_shape sim fetch now s q limit filters with h | ⟨scored, h⟩
  · rw [h]
    exact ⟨by simp, List.Pairwise.nil, by simp⟩
  · rw [h]
    exact rankAndSelect_spec scored limit

/-- Witness for C2: a concrete returned pair scores above the threshold. -/
theorem c2_find_similar_witness :
    MIN_SIMILARITY ≤ ((sampleResolved "b" 1, (1 : ℚ))).2 :=
  (c2_find_similar_spec simConst fetchAB 0 stateAB [1] 5 (some "resolved")).1
    (sampleResolved "b" 1, 1) (by decide)

/-! ## C6 — tie order among equal scores

The spec says equal-score candidates keep their original retrieval order.
The source computes `np.argsort(similarities)[::-1]`: an ascending sort
whose output is reversed, so equal-score candidates come out in *reverse*
retrieval order.  `c6_tie_order_counterexample` exhibits this on two
equal-score candidates; `c6_rank_order_spec` proves the amended statement:
the selection runs over the candidates in an order that is descending in
score and, among equal scores, descending in candidate index. -/

/-- **C6 (counterexample).** Two candidates retrieved in the order
`a, b` with equal similarity scores are returned by `find_similar` in the
order `b, a` — not in their retrieval order, contradicting the claim. -/
theorem c6_tie_order_counterexample :
    fetchAB "resolved" = [sampleResolved "a" 0, sampleResolved "b" 1] ∧
    (find_similar simConst fetchAB 0 stateAB [1] 5 (some "resolved")).results =
      [(sampleResolved "b" 1, 1), (sampleResolved "a" 0, 1)] ∧
    sampleResolved "a" 0 ≠ sampleResolved "b" 1 :=
  ⟨by decide, by decide, by decide⟩

/-- **C6 (amended).** The ranked selection of `find_similar` (lines
168–185) enumerates the scored candidates along an index order that is a
permutation of all candidate indices, pairwise descending in score with
equal-score candidates in *decreasing* index order (reverse retrieval
order), and returns the first `limit` of the above-threshold candidates in
that order. -/
theorem c6_rank_order_spec (scored : List (IncidentResponse × ℚ)) (limit : Nat) :
    ∃ order : List Nat,
      List.Perm order (List.range scored.length) ∧
      order.Pairwise (fun i j => ltKey (scored.map (fun p => p.2)) j i) ∧
      rankAndSelect scored limit =
        ((order.map (fun i => scored.getD i (default, 0))).filter
          (fun p => decide (MIN_SIMILARITY ≤ p.2))).take limit := by
  refine ⟨(argsortAsc (scored.map (fun p => p.2))).reverse, ?_, ?_, ?_⟩
  · have h1 := argsortAsc_perm (scored.map (fun p => p.2))
    simpa using (List.reverse_perm _).trans h1
  · rw [List.pairwise_reverse]
    exact argsortAsc_pairwise (scored.map (fun p => p.2))
  · exact rankAndSelect_eq scored limit

/-! ## C3 — candidate-cache TTL and invalidation -/

/-- A fetching `_get_resolved_incidents` call captures the cache with the
current timestamp and leaves the embedding store untouched. -/
theorem get_resolved_state_of_fetched (fetch : String → List IncidentResponse)
    (now : Nat) (s : VectorState)
    (h : (get_resolved_incidents fetch now s).fetched = true) :
    (get_resolved_incidents fetch now s).state.resolved_incidents_cache =
      some ((fetch "resolved").filter
        (fun inc => (lookupKey s.embeddings inc.id).isSome)) ∧
    (get_resolved_incidents fetch now s).state.cache_timestamp = some now := by
  unfold get_resolved_incidents at h ⊢
  revert h
  rcases hc : s.resolved_incidents_cache with _ | c <;>
    rcases hts : s.cache_timestamp with _ | ts <;>
    intro h
  · exact ⟨rfl, rfl⟩
  · exact ⟨rfl, rfl⟩
  · exact ⟨rfl, rfl⟩
  · dsimp only at h ⊢
    by_cases hv : now - ts < CACHE_TTL
    · rw [if_pos hv] at h
      exact Bool.noConfusion h
    · rw [if_neg hv] at h ⊢
      exact ⟨rfl, rfl⟩

/-- A fresh cache is served without querying the incident store and without
touching the state. -/
theorem get_resolved_hit (fetch : String → List IncidentResponse) (now : Nat)
    (s : VectorState) (c : List IncidentResponse) (ts : Nat)
    (hc : s.resolved_incidents_cache = some c) (hts : s.cache_timestamp = some ts)
    (hv : now - ts < CACHE_TTL) :
    get_resolved_incidents fetch now s = ⟨c, s, false⟩ := by
  unfold get_resolved_incidents
  rw [hc, hts]
  dsimp only
  rw [if_pos hv]

/-- Once the TTL has elapsed since capture, the next call queries the
incident store again. -/
theorem get_resolved_miss_ttl (fetch : String → List IncidentResponse)
    (now : Nat) (s : VectorState) (ts : Nat)
    (hts : s.cache_timestamp = some ts) (hv : CACHE_TTL ≤ now - ts) :
    (get_resolved_incidents fetch now s).fetched = true := by
  unfold get_resolved_incidents
  rw [hts]
  rcases hc : s.resolved_incidents_cache with _ | c
  · rfl
  · dsimp only
    rw [if_neg (by omega)]

/-- **C3.** With the resolved status filter: (i) when a `find_similar` call
at `t1` rebuilt the candidate cache, a second call at `t2` within the TTL
on the resulting state (no intervening `add_embedding`/`remove_embedding`)
does not query the incident store and leaves the state unchanged; (ii) when
the TTL has elapsed since the cached capture timestamp, the next call
queries the store; (iii) after any `add_embedding` or `remove_embedding`,
the next call queries the store. -/
theorem c3_cache_ttl_spec (sim : List ℚ → List ℚ → ℚ)
    (fetch : String → List IncidentResponse) (s : VectorState)
    (q1 q2 : List ℚ) (l1 l2 : Nat) (fl1 fl2 : Option String) (t1 t2 : Nat)
    (hf1 : fl1.getD "resolved" = "resolved")
    (hf2 : fl2.getD "resolved" = "resolved") :
    ((find_similar sim fetch t1 s q1 l1 fl1).fetched = true →
      t2 - t1 < CACHE_TTL →
      (find_similar sim fetch t2 (find_similar sim fetch t1 s q1 l1 fl1).state
          q2 l2 fl2).fetched = false ∧
      (find_similar sim fetch t2 (find_similar sim fetch t1 s q1 l1 fl1).state
          q2 l2 fl2).state = (find_similar sim fetch t1 s q1 l1 fl1).state) ∧
    (∀ ts, s.cache_timestamp = some ts → CACHE_TTL ≤ t2 - ts →
      (find_similar sim fetch t2 s q2 l2 fl2).fetched = true) ∧
    (∀ incident_id embedding md,
      (find_similar sim fetch t2 (add_embedding s incident_id embedding md)
        q2 l2 fl2).fetched = true) ∧
    (∀ incident_id,
      (find_similar sim fetch t2 (remove_embedding s incident_id)
        q2 l2 fl2).fetched = true) := by
  have heff1 := find_similar_resolved_effects sim fetch t1 s q1 l1 fl1 hf1
  refine ⟨?_, ?_, ?_, ?_⟩
  · intro hb ht
    have hb' : (get_resolved_incidents fetch t1 s).fetched = true := by
      rw [← heff1.1]
      exact hb
    obtain ⟨hcache, hts⟩ := get_resolved_state_of_fetched fetch t1 s hb'
    have heff2 := find_similar_resolved_effects sim fetch t2
      (find_similar sim fetch t1 s q1 l1 fl1).state q2 l2 fl2 hf2
    have hhit := get_resolved_hit fetch t2
      (find_similar sim fetch t1 s q1 l1 fl1).state _ t1
      (by rw [heff1.2]; exact hcache) (by rw [heff1.2]; exact hts) ht
    constructor
    · rw [heff2.1, hhit]
    · rw [heff2.2, hhit]
  · intro ts hts httl
    rw [(find_similar_resolved_effects sim fetch t2 s q2 l2 fl2 hf2).1]
    exact get_resolved_miss_ttl fetch t2 s ts hts httl
  · intro incident_id embedding md
    rw [(find_similar_resolved_effects sim fetch t2 _ q2 l2 fl2 hf2).1]
    exact get_resolved_fetches_of_cache_none fetch t2 _ rfl
  · intro incident_id
    rw [(find_similar_resolved_effects sim fetch t2 _ q2 l2 fl2 hf2).1]
    exact get_resolved_fetches_of_cache_none fetch t2 _ rfl

/-- Witness for C3 part (i): a capturing call at `t = 0`, a second call at
`t = 100` (within the 300-second TTL) on its state: no store query, state
unchanged. -/
theorem c3_cache_ttl_witness :
    (find_similar simConst fetchAB 100
        (find_similar simConst fetchAB 0 stateAB [1] 5 (some "resolved")).state
        [1] 5 (some "resolved")).fetched = false ∧
    (find_similar simConst fetchAB 100
        (find_similar simConst fetchAB 0 stateAB [1] 5 (some "resolved")).state
        [1] 5 (some "resolved")).state =
      (find_similar simConst fetchAB 0 stateAB [1] 5 (some "resolved")).state :=
  (c3_cache_ttl_spec simConst fetchAB stateAB [1] [1] 5 5 (some "resolved")
    (some "resolved") 0 100 rfl rfl).1 (by decide) (by decide)

/-! ## Weighted-vote machinery (for C5)

The count dictionaries of `_classify_by_majority_vote` are built by
`tally`; the facts needed are: the accumulated value of each key is the
sum of the weights carried by that key, the dictionary lists keys in order
of first occurrence, and Python's `max` picks the first maximal item. -/

/-- The value of a key in an association list (`0` when absent), reading
the first matching entry — Python `dict` semantics. -/
def wlookup {K : Type} [DecidableEq K] : List (K × ℚ) → K → ℚ
  | [], _ => 0
  | (a, v) :: rest, k => if a = k then v else wlookup rest k

/-- The total weight carried by key `k` in a key/weight pair list. -/
def weightOf {K : Type} [DecidableEq K] (pairs : List (K × ℚ)) (k : K) : ℚ :=
  ((pairs.filter (fun p => decide (p.1 = k))).map (fun p => p.2)).sum

/-- Index of the first occurrence of `a` in `l` (`l.length` when absent). -/
def firstIdx {K : Type} [DecidableEq K] : List K → K → Nat
  | [], _ => 0
  | b :: l, a => if b = a then 0 else firstIdx l a + 1

/-- The keys of `l` not yet `seen`, in order of first occurrence. -/
def newKeys {K : Type} [DecidableEq K] (seen : List K) : List K → List K
  | [] => []
  | k :: rest =>
    if k ∈ seen then newKeys seen rest else k :: newKeys (k :: seen) rest

theorem wlookup_addWeight_self {K : Type} [DecidableEq K]
    (m : List (K × ℚ)) (k : K) (w : ℚ) :
    wlookup (addWeight m k w) k = wlookup m k + w := by
  induction m with
  | nil => simp [addWeight, wlookup]
  | cons p rest ih =>
    obtain ⟨a, v⟩ := p
    by_cases ha : a = k
    · simp [addWeight, wlookup, ha]
    · simp [addWeight, wlookup, ha, ih]

theorem wlookup_addWeight_ne {K : Type} [DecidableEq K]
    (m : List (K × ℚ)) (k j : K) (w : ℚ) (h : j ≠ k) :
    wlookup (addWeight m k w) j = wlookup m j := by
  have hkj : ¬ k = j := fun hc => h hc.symm
  induction m with
  | nil =>
    simp only [addWeight, wlookup]
    rw [if_neg hkj]
  | cons p rest ih =>
    obtain ⟨a, v⟩ := p
    by_cases ha : a = k
    · have haj : ¬ a = j := fun hc => hkj (ha.symm.trans hc)
      simp only [addWeight, if_pos ha, wlookup, if_neg haj]
    · by_cases haj : a = j
      · simp only [addWeight, if_neg ha, wlookup, if_pos haj]
      · simp only [addWeight, if_neg ha, wlookup, if_neg haj]
        exact ih

theorem keys_addWeight {K : Type} [DecidableEq K]
    (m : List (K × ℚ)) (k : K) (w : ℚ) :
    (addWeight m k w).map Prod.fst =
      if k ∈ m.map Prod.fst then m.map Prod.fst else m.map Prod.fst ++ [k] := by
  induction m with
  | nil => simp [addWeight]
  | cons p rest ih =>
    obtain ⟨a, v⟩ := p
    by_cases ha : a = k
    · simp [addWeight, ha]
    · simp only [addWeight, if_neg ha, List.map_cons, ih]
      by_cases hk : k ∈ rest.map Prod.fst
      · rw [if_pos hk, if_pos (by simp [hk])]
      · rw [if_neg hk, if_neg ?_]
        · simp
        · simp only [List.map_cons, List.mem_cons]
          rintro (hc | hc)
          · exact ha hc.symm
          · exact hk hc

theorem newKeys_congr {K : Type} [DecidableEq K] (l : List K) :
    ∀ s₁ s₂ : List K, (∀ a, a ∈ s₁ ↔ a ∈ s₂) →
    newKeys s₁ l = newKeys s₂ l := by
  induction l with
  | nil => intro s₁ s₂ _; rfl
  | cons k rest ih =>
    intro s₁ s₂ hs
    simp only [newKeys]
    by_cases hk : k ∈ s₁
    · rw [if_pos hk, if_pos ((hs k).mp hk), ih s₁ s₂ hs]
    · rw [if_neg hk, if_neg (fun hc => hk ((hs k).mpr hc))]
      rw [ih (k :: s₁) (k :: s₂) (by intro a; simp [hs a])]

theorem mem_newKeys {K : Type} [DecidableEq K] (l : List K) :
    ∀ (seen : List K) (a : K), a ∈ newKeys seen l → a ∉ seen ∧ a ∈ l := by
  induction l with
  | nil => intro seen a ha; exact absurd ha (List.not_mem_nil a)
  | cons k rest ih =>
    intro seen a ha
    simp only [newKeys] at ha
    by_cases hk : k ∈ seen
    · rw [if_pos hk] at ha
      obtain ⟨h1, h2⟩ := ih seen a ha
      exact ⟨h1, List.mem_cons_of_mem k h2⟩
    · rw [if_neg hk] at ha
      rcases List.mem_cons.mp ha with rfl | ha2
      · exact ⟨hk, List.mem_cons_self a rest⟩
      · obtain ⟨h1, h2⟩ := ih (k :: seen) a ha2
        exact ⟨fun hc => h1 (List.mem_cons_of_mem k hc), List.mem_cons_of_mem k h2⟩

theorem mem_newKeys_of {K : Type} [DecidableEq K] (l : List K) :
    ∀ (seen : List K) (a : K), a ∈ l → a ∉ seen → a ∈ newKeys seen l := by
  induction l with
  | nil => intro seen a ha; exact absurd ha (List.not_mem_nil a)
  | cons k rest ih =>
    intro seen a ha hs
    simp only [newKeys]
    by_cases hk : k ∈ seen
    · rw [if_pos hk]
      rcases List.mem_cons.mp ha with rfl | ha2
      · exact absurd hk hs
      · exact ih seen a ha2 hs
    · rw [if_neg hk]
      rcases List.mem_cons.mp ha with rfl | ha2
      · exact List.mem_cons_self a _
      · by_cases hak : a = k
        · subst hak; exact List.mem_cons_self a _
        · exact List.mem_cons_of_mem k
            (ih (k :: seen) a ha2 (by simp [hak, hs]))

theorem firstIdx_cons_self {K : Type} [DecidableEq K] (a : K) (l : List K) :
    firstIdx (a :: l) a = 0 := by
  simp [firstIdx]

theorem firstIdx_cons_ne {K : Type} [DecidableEq K] (b a : K) (l : List K)
    (h : ¬ b = a) : firstIdx (b :: l) a = firstIdx l a + 1 := by
  simp [firstIdx, h]

theorem wlookup_tally_aux {K : Type} [DecidableEq K] (pairs : List (K × ℚ))
    (k : K) : ∀ m,
    wlookup (pairs.foldl (fun m p => addWeight m p.1 p.2) m) k =
      wlookup m k + weightOf pairs k := by
  induction pairs with
  | nil => intro m; simp [weightOf]
  | cons p rest ih =>
    intro m
    obtain ⟨a, w⟩ := p
    simp only [List.foldl_cons]
    rw [ih (addWeight m a w)]
    by_cases ha : a = k
    · subst ha
      rw [wlookup_addWeight_self]
      have : weightOf ((a, w) :: rest) a = w + weightOf rest a := by
        simp [weightOf, List.filter_cons]
      rw [this]
      ring
    · rw [wlookup_addWeight_ne m a k w (fun hc => ha hc.symm)]
      have : weightOf ((a, w) :: rest) k = weightOf rest k := by
        simp [weightOf, List.filter_cons, ha]
      rw [this]

theorem keys_tally_aux {K : Type} [DecidableEq K] (pairs : List (K × ℚ)) :
    ∀ m, (pairs.foldl (fun m p => addWeight m p.1 p.2) m).map Prod.fst =
      m.map Prod.fst ++ newKeys (m.map Prod.fst) (pairs.map Prod.fst) := by
  induction pairs with
  | nil => intro m; simp [newKeys]
  | cons p rest ih =>
    intro m
    obtain ⟨a, w⟩ := p
    simp only [List.foldl_cons, List.map_cons]
    rw [ih (addWeight m a w), keys_addWeight]
    by_cases ha : a ∈ m.map Prod.fst
    · rw [if_pos ha]
      simp only [newKeys, if_pos ha]
    · rw [if_neg ha]
      simp only [newKeys, if_neg ha]
      rw [show newKeys (m.map Prod.fst ++ [a]) (rest.map Prod.fst) =
          newKeys (a :: m.map Prod.fst) (rest.map Prod.fst) from
        newKeys_congr _ _ _ (by intro x; simp [or_comm])]
      simp

theorem newKeys_pairwise {K : Type} [DecidableEq K] (l : List K) :
    ∀ seen, (newKeys seen l).Pairwise
      (fun a b => firstIdx l a < firstIdx l b) := by
  induction l with
  | nil => intro seen; simp [newKeys]
  | cons k rest ih =>
    intro seen
    simp only [newKeys]
    by_cases hk : k ∈ seen
    · rw [if_pos hk]
      refine List.Pairwise.imp_of_mem ?_ (ih seen)
      intro a b ha hb hr
      have hak : ¬ k = a := by
        intro hc
        exact (mem_newKeys rest seen a ha).1 (by rw [← hc]; exact hk)
      have hbk : ¬ k = b := by
        intro hc
        exact (mem_newKeys rest seen b hb).1 (by rw [← hc]; exact hk)
      rw [firstIdx_cons_ne k a rest hak, firstIdx_cons_ne k b rest hbk]
      omega
    · rw [if_neg hk]
      refine List.Pairwise.cons ?_ ?_
      · intro b hb
        have hbk : ¬ k = b := by
          intro hc
          exact (mem_newKeys rest (k :: seen) b hb).1
            (by rw [← hc]; exact List.mem_cons_self k seen)
        rw [firstIdx_cons_self, firstIdx_cons_ne k b rest hbk]
        omega
      · refine List.Pairwise.imp_of_mem ?_ (ih (k :: seen))
        intro a b ha hb hr
        have hak : ¬ k = a := by
          intro hc
          exact (mem_newKeys rest (k :: seen) a ha).1
            (by rw [← hc]; exact List.mem_cons_self k seen)
        have hbk : ¬ k = b := by
          intro hc
          exact (mem_newKeys rest (k :: seen) b hb).1
            (by rw [← hc]; exact List.mem_cons_self k seen)
        rw [firstIdx_cons_ne k a rest hak, firstIdx_cons_ne k b rest hbk]
        omega

theorem newKeys_nodup {K : Type} [DecidableEq K] (l seen : List K) :
    (newKeys seen l).Nodup := by
  refine (newKeys_pairwise l seen).imp ?_
  intro a b h hc
  rw [hc] at h
  exact lt_irrefl _ h

theorem wlookup_of_mem {K : Type} [DecidableEq K] (m : List (K × ℚ)) :
    ∀ (k : K) (v : ℚ), (m.map Prod.fst).Nodup → (k, v) ∈ m →
    wlookup m k = v := by
  induction m with
  | nil => intro k v _ hm; exact absurd hm (List.not_mem_nil _)
  | cons p rest ih =>
    intro k v hnd hm
    obtain ⟨a, u⟩ := p
    rw [List.map_cons, List.nodup_cons] at hnd
    rcases List.mem_cons.mp hm with heq | hm2
    · cases heq
      simp [wlookup]
    · have hak : ¬ a = k := by
        intro hc
        subst hc
        exact hnd.1 (List.mem_map.mpr ⟨(a, v), hm2, rfl⟩)
      simp only [wlookup, if_neg hak]
      exact ih k v hnd.2 hm2

/-- Python `max(best :: rest, key=snd)` splits the iteration into a strict
prefix of strictly smaller values, the returned (first maximal) item, and a
suffix of no-larger values. -/
theorem maxBySnd_spec {K : Type} (rest : List (K × ℚ)) : ∀ best : K × ℚ,
    (∃ l₁ l₂, best :: rest = l₁ ++ (maxBySnd best rest) :: l₂ ∧
      (∀ p ∈ l₁, p.2 < (maxBySnd best rest).2)) ∧
    (∀ p ∈ best :: rest, p.2 ≤ (maxBySnd best rest).2) := by
  induction rest with
  | nil =>
    intro best
    refine ⟨⟨[], [], rfl, by simp⟩, ?_⟩
    intro p hp
    rcases List.mem_cons.mp hp with rfl | h
    · exact le_refl _
    · exact absurd h (List.not_mem_nil _)
  | cons p rest' ih =>
    intro best
    simp only [maxBySnd]
    by_cases hb : best.2 < p.2
    · rw [if_pos hb]
      obtain ⟨⟨l₁, l₂, heq, hlt⟩, hle⟩ := ih p
      refine ⟨⟨best :: l₁, l₂, ?_, ?_⟩, ?_⟩
      · rw [List.cons_append, ← heq]
      · intro x hx
        rcases List.mem_cons.mp hx with rfl | hx2
        · exact lt_of_lt_of_le hb (hle p (List.mem_cons_self p rest'))
        · exact hlt x hx2
      · intro x hx
        rcases List.mem_cons.mp hx with rfl | hx2
        · exact le_of_lt (lt_of_lt_of_le hb (hle p (List.mem_cons_self p rest')))
        · exact hle x hx2
    · rw [if_neg hb]
      obtain ⟨⟨l₁, l₂, heq, hlt⟩, hle⟩ := ih best
      have hple : p.2 ≤ (maxBySnd best rest').2 :=
        le_trans (not_lt.mp hb) (hle best (List.mem_cons_self best rest'))
      cases l₁ with
      | nil =>
        have hbm : best = maxBySnd best rest' := by
          injection heq
        have hl₂ : rest' = l₂ := by
          injection heq
        refine ⟨⟨[], p :: l₂, ?_, by simp⟩, ?_⟩
        · rw [List.nil_append, ← hbm, ← hl₂]
        · intro x hx
          rcases List.mem_cons.mp hx with rfl | hx2
          · exact hle x (List.mem_cons_self _ _)
          · rcases List.mem_cons.mp hx2 with rfl | hx3
            · exact hple
            · exact hle x (List.mem_cons_of_mem _ hx3)
      | cons b l₁' =>
        have hb1 : best = b := by
          injection heq
        have hrest : rest' = l₁' ++ maxBySnd best rest' :: l₂ := by
          injection heq
        refine ⟨⟨best :: p :: l₁', l₂, ?_, ?_⟩, ?_⟩
        · rw [List.cons_append, List.cons_append, ← hrest]
        · intro x hx
          rcases List.mem_cons.mp hx with rfl | hx2
          · exact hlt x (by rw [hb1]; exact List.mem_cons_self b l₁')
          · rcases List.mem_cons.mp hx2 with rfl | hx3
            · exact lt_of_le_of_lt (not_lt.mp hb)
                (hlt best (by rw [hb1]; exact List.mem_cons_self b l₁'))
            · exact hlt x (List.mem_cons_of_mem b hx3)
        · intro x hx
          rcases List.mem_cons.mp hx with rfl | hx2
          · exact hle x (List.mem_cons_self _ _)
          · rcases List.mem_cons.mp hx2 with rfl | hx3
            · exact hple
            · exact hle x (List.mem_cons_of_mem _ hx3)

/-- The key picked from a tally of key/weight pairs carries the maximal
accumulated weight, and among equal accumulated weights it is the key
whose first occurrence in the pair list is earliest. -/
theorem pickMaxKey_tally_spec {K : Type} [DecidableEq K]
    (pairs : List (K × ℚ)) (dflt : K) (hne : pairs ≠ []) :
    pickMaxKey (tally pairs) dflt ∈ pairs.map Prod.fst ∧
    (∀ k ∈ pairs.map Prod.fst,
      weightOf pairs k ≤ weightOf pairs (pickMaxKey (tally pairs) dflt)) ∧
    (∀ k ∈ pairs.map Prod.fst,
      weightOf pairs k = weightOf pairs (pickMaxKey (tally pairs) dflt) →
      k ≠ pickMaxKey (tally pairs) dflt →
      firstIdx (pairs.map Prod.fst) (pickMaxKey (tally pairs) dflt) <
        firstIdx (pairs.map Prod.fst) k) := by
  have hkeys : (tally pairs).map Prod.fst = newKeys [] (pairs.map Prod.fst) := by
    have h := keys_tally_aux pairs []
    simpa [tally] using h
  have hlk : ∀ k, wlookup (tally pairs) k = weightOf pairs k := by
    intro k
    have h := wlookup_tally_aux pairs k []
    simpa [tally, wlookup] using h
  have hnd : ((tally pairs).map Prod.fst).Nodup := by
    rw [hkeys]
    exact newKeys_nodup _ _
  have hne' : pairs.map Prod.fst ≠ [] := by
    intro hc
    exact hne (List.map_eq_nil_iff.mp hc)
  obtain ⟨k0, hk0⟩ : ∃ k0, k0 ∈ pairs.map Prod.fst :=
    List.exists_mem_of_ne_nil _ hne'
  have hk0' : k0 ∈ (tally pairs).map Prod.fst := by
    rw [hkeys]
    exact mem_newKeys_of _ [] k0 hk0 (List.not_mem_nil _)
  obtain ⟨x, xs, hx⟩ : ∃ x xs, tally pairs = x :: xs := by
    cases ht : tally pairs with
    | nil =>
      rw [ht] at hk0'
      exact absurd hk0' (by simp)
    | cons x xs => exact ⟨x, xs, rfl⟩
  have hpick : pickMaxKey (tally pairs) dflt = (maxBySnd x xs).1 := by
    rw [hx]
    rfl
  obtain ⟨⟨l₁, l₂, heq, hlt⟩, hle⟩ := maxBySnd_spec xs x
  have hmem : maxBySnd x xs ∈ tally pairs := by
    rw [hx, heq]
    exact List.mem_append_right _ (List.mem_cons_self _ _)
  have hval : (maxBySnd x xs).2 = weightOf pairs (maxBySnd x xs).1 := by
    have h1 : wlookup (tally pairs) (maxBySnd x xs).1 = (maxBySnd x xs).2 :=
      wlookup_of_mem _ _ _ hnd
        (show ((maxBySnd x xs).1, (maxBySnd x xs).2) ∈ tally pairs by
          rw [Prod.mk.eta]
          exact hmem)
    rw [← h1, hlk]
  have hrk : (maxBySnd x xs).1 ∈ pairs.map Prod.fst := by
    have h1 : (maxBySnd x xs).1 ∈ (tally pairs).map Prod.fst :=
      List.mem_map.mpr ⟨maxBySnd x xs, hmem, rfl⟩
    rw [hkeys] at h1
    exact (mem_newKeys _ [] _ h1).2
  have hentry : ∀ k ∈ pairs.map Prod.fst,
      ((k, weightOf pairs k) : K × ℚ) ∈ tally pairs := by
    intro k hk
    have hkt : k ∈ (tally pairs).map Prod.fst := by
      rw [hkeys]
      exact mem_newKeys_of _ [] k hk (List.not_mem_nil _)
    obtain ⟨pkv, hpkv, hfst⟩ := List.mem_map.mp hkt
    have hv : wlookup (tally pairs) k = pkv.2 :=
      wlookup_of_mem _ _ _ hnd (by rw [← hfst, Prod.mk.eta]; exact hpkv)
    have hv2 : pkv.2 = weightOf pairs k := by
      rw [← hv, hlk]
    rw [← hv2, ← hfst, Prod.mk.eta]
    exact hpkv
  refine ⟨by rw [hpick]; exact hrk, ?_, ?_⟩
  · intro k hk
    have h1 := hle (k, weightOf pairs k) (by rw [← hx]; exact hentry k hk)
    rw [hpick, ← hval]
    exact h1
  · intro k hk hw hkne
    have hpkv' : ((k, weightOf pairs k) : K × ℚ) ∈
        l₁ ++ maxBySnd x xs :: l₂ := by
      rw [← heq, ← hx]
      exact hentry k hk
    rcases List.mem_append.mp hpkv' with h1 | h2
    · exfalso
      have h3 := hlt _ h1
      rw [hpick] at hw
      rw [hw, hval] at h3
      exact lt_irrefl _ h3
    · rcases List.mem_cons.mp h2 with heq2 | h3
      · exfalso
        apply hkne
        rw [hpick]
        have : ((k, weightOf pairs k) : K × ℚ).1 = (maxBySnd x xs).1 := by
          rw [heq2]
        exact this
      · have hkeysplit : (tally pairs).map Prod.fst =
            l₁.map Prod.fst ++ (maxBySnd x xs).1 :: l₂.map Prod.fst := by
          rw [hx, heq]
          simp
        have hpw : ((tally pairs).map Prod.fst).Pairwise
            (fun a b => firstIdx (pairs.map Prod.fst) a <
              firstIdx (pairs.map Prod.fst) b) := by
          rw [hkeys]
          exact newKeys_pairwise _ _
        rw [hkeysplit] at hpw
        have hsub := hpw.sublist
          (List.sublist_append_right (l₁.map Prod.fst) _)
        have h4 := (List.pairwise_cons.mp hsub).1 k
          (List.mem_map.mpr ⟨(k, weightOf pairs k), h3, rfl⟩)
        rw [hpick]
        exact h4

/-! ## C5 — similarity-weighted majority vote -/

/-- The accumulated weight of a severity value: the sum of the similarity
scores of the neighbors carrying it. -/
def severityWeight (similar : List (IncidentResponse × ℚ)) (τ : Severity) : ℚ :=
  ((similar.filter (fun p => decide (p.1.severity = τ))).map (fun p => p.2)).sum

/-- The accumulated weight of a category value. -/
def categoryWeight (similar : List (IncidentResponse × ℚ)) (κ : Category) : ℚ :=
  ((similar.filter (fun p => decide (p.1.category = κ))).map (fun p => p.2)).sum

theorem weightOf_map_key {K : Type} [DecidableEq K]
    (f : IncidentResponse → K) (similar : List (IncidentResponse × ℚ)) (k : K) :
    weightOf (similar.map (fun p => (f p.1, p.2))) k =
      ((similar.filter (fun p => decide (f p.1 = k))).map (fun p => p.2)).sum := by
  induction similar with
  | nil => simp [weightOf]
  | cons p rest ih =>
    simp only [List.map_cons]
    simp only [weightOf] at ih ⊢
    rw [List.filter_cons, List.filter_cons]
    by_cases h : f p.1 = k
    · simp [h, ih]
    · simp [h, ih]

/-- **C5.** When no LLM classifier is configured, `_classify_by_majority_vote`
on a non-empty neighbor list returns, for severity and for category alike,
a value occurring among the neighbors whose accumulated weight (sum of the
similarity scores of the neighbors carrying it) is maximal; any distinct
value of equal accumulated weight first occurs strictly later in the
neighbor list, i.e. ties go to the value first encountered in the
similarity-descending neighbor list. -/
theorem c5_majority_vote_spec (similar_incidents : List (IncidentResponse × ℚ))
    (rule_result : RuleResult) (hne : similar_incidents ≠ []) :
    ((_classify_by_majority_vote similar_incidents rule_result).1 ∈
        similar_incidents.map (fun p => p.1.severity) ∧
      (∀ τ ∈ similar_incidents.map (fun p => p.1.severity),
        severityWeight similar_incidents τ ≤ severityWeight similar_incidents
          (_classify_by_majority_vote similar_incidents rule_result).1) ∧
      (∀ τ ∈ similar_incidents.map (fun p => p.1.severity),
        severityWeight similar_incidents τ = severityWeight similar_incidents
          (_classify_by_majority_vote similar_incidents rule_result).1 →
        τ ≠ (_classify_by_majority_vote similar_incidents rule_result).1 →
        firstIdx (similar_incidents.map (fun p => p.1.severity))
            (_classify_by_majority_vote similar_incidents rule_result).1 <
          firstIdx (similar_incidents.map (fun p => p.1.severity)) τ)) ∧
    ((_classify_by_majority_vote similar_incidents rule_result).2 ∈
        similar_incidents.map (fun p => p.1.category) ∧
      (∀ κ ∈ similar_incidents.map (fun p => p.1.category),
        categoryWeight similar_incidents κ ≤ categoryWeight similar_incidents
          (_classify_by_majority_vote similar_incidents rule_result).2) ∧
      (∀ κ ∈ similar_incidents.map (fun p => p.1.category),
        categoryWeight similar_incidents κ = categoryWeight similar_incidents
          (_classify_by_majority_vote similar_incidents rule_result).2 →
        κ ≠ (_classify_by_majority_vote similar_incidents rule_result).2 →
        firstIdx (similar_incidents.map (fun p => p.1.category))
            (_classify_by_majority_vote similar_incidents rule_result).2 <
          firstIdx (similar_incidents.map (fun p => p.1.category)) κ)) := by
  have hcls : _classify_by_majority_vote similar_incidents rule_result =
      (pickMaxKey (tally (similar_incidents.map (fun p => (p.1.severity, p.2))))
        rule_result.severity,
       pickMaxKey (tally (similar_incidents.map (fun p => (p.1.category, p.2))))
        rule_result.category) := by
    unfold _classify_by_majority_vote
    rw [if_neg (by simp [List.isEmpty_iff, hne])]
  have hmapneS : similar_incidents.map (fun p => (p.1.severity, p.2)) ≠ [] := by
    intro hc
    exact hne (List.map_eq_nil_iff.mp hc)
  have hmapneC : similar_incidents.map (fun p => (p.1.category, p.2)) ≠ [] := by
    intro hc
    exact hne (List.map_eq_nil_iff.mp hc)
  have hS := pickMaxKey_tally_spec
    (similar_incidents.map (fun p => (p.1.severity, p.2)))
    rule_result.severity hmapneS
  have hC := pickMaxKey_tally_spec
    (similar_incidents.map (fun p => (p.1.category, p.2)))
    rule_result.category hmapneC
  have hkeysS : (similar_incidents.map (fun p => (p.1.severity, p.2))).map
      Prod.fst = similar_incidents.map (fun p => p.1.severity) := by
    simp [List.map_map, Function.comp]
  have hkeysC : (similar_incidents.map (fun p => (p.1.category, p.2))).map
      Prod.fst = similar_incidents.map (fun p => p.1.category) := by
    simp [List.map_map, Function.comp]
  have hwS : ∀ τ, weightOf (similar_incidents.map (fun p => (p.1.severity, p.2)))
      τ = severityWeight similar_incidents τ :=
    fun τ => weightOf_map_key (fun inc => inc.severity) similar_incidents τ
  have hwC : ∀ κ, weightOf (similar_incidents.map (fun p => (p.1.category, p.2)))
      κ = categoryWeight similar_incidents κ :=
    fun κ => weightOf_map_key (fun inc => inc.category) similar_incidents κ
  rw [hkeysS] at hS
  rw [hkeysC] at hC
  simp only [hwS] at hS
  simp only [hwC] at hC
  rw [hcls]
  exact ⟨⟨hS.1, hS.2.1, hS.2.2⟩, ⟨hC.1, hC.2.1, hC.2.2⟩⟩

/-- Witness for C5 at a concrete two-neighbor list. -/
theorem c5_majority_vote_witness :
    (_classify_by_majority_vote
        [(sampleResolved "a" 0, 1), (sampleResolved "b" 1, 1)] ruleKnown).1 ∈
      [(sampleResolved "a" 0, (1 : ℚ)), (sampleResolved "b" 1, 1)].map
        (fun p => p.1.severity) :=
  (c5_majority_vote_spec
    [(sampleResolved "a" 0, 1), (sampleResolved "b" 1, 1)] ruleKnown
    (by decide)).1.1

/-! ## C8 — suggested action from similar incidents -/

/-- Python `max(s0 :: rest, key=actions.count)` returns an element of the
iterated collection with maximal count (the first maximal one in iteration
order). -/
theorem maxByCount_spec (actions : List String) (l : List String) :
    ∀ best : String,
    maxByCount actions best l ∈ best :: l ∧
    (∀ b ∈ best :: l,
      actions.count b ≤ actions.count (maxByCount actions best l)) := by
  induction l with
  | nil =>
    intro best
    refine ⟨List.mem_cons_self _ _, ?_⟩
    intro b hb
    rcases List.mem_cons.mp hb with rfl | h
    · exact le_refl _
    · exact absurd h (List.not_mem_nil _)
  | cons a rest ih =>
    intro best
    simp only [maxByCount]
    by_cases h : actions.count best < actions.count a
    · rw [if_pos h]
      obtain ⟨hmem, hle⟩ := ih a
      refine ⟨List.mem_cons_of_mem best hmem, ?_⟩
      intro b hb
      rcases List.mem_cons.mp hb with rfl | hb2
      · exact le_trans (le_of_lt h) (hle a (List.mem_cons_self _ _))
      · exact hle b hb2
    · rw [if_neg h]
      obtain ⟨hmem, hle⟩ := ih best
      refine ⟨?_, ?_⟩
      · rcases List.mem_cons.mp hmem with h2 | h2
        · rw [h2]
          exact List.mem_cons_self _ _
        · exact List.mem_cons_of_mem best (List.mem_cons_of_mem a h2)
      · intro b hb
        rcases List.mem_cons.mp hb with rfl | hb2
        · exact hle b (List.mem_cons_self _ _)
        · rcases List.mem_cons.mp hb2 with rfl | hb3
          · exact le_trans (not_lt.mp h) (hle best (List.mem_cons_self _ _))
          · exact hle b (List.mem_cons_of_mem best hb3)

/-- A resolved incident whose suggested action is `"alpha"`. -/
def incActA : IncidentResponse :=
  ⟨"a1", "t", "d", "AP", "Prod", "BU", Severity.P1,
   Category.INTEGRATION_FAILURE, IncidentStatus.RESOLVED, 0, 0, none,
   some "alpha"⟩

/-- A resolved incident whose suggested action is `"beta"`. -/
def incActB : IncidentResponse :=
  ⟨"b1", "t", "d", "AP", "Prod", "BU", Severity.P1,
   Category.INTEGRATION_FAILURE, IncidentStatus.RESOLVED, 1, 1, none,
   some "beta"⟩

/-- **C8 (counterexample).** With neighbor actions `["alpha", "beta"]`
(each of count 1 — a tie) and the set of actions enumerated as
`["beta", "alpha"]` (a legitimate iteration order of a Python `set`, whose
order is hash-based, not first-occurrence), the refined action is built
from `"beta"`, not from the first-occurring `"alpha"` that the claim
predicts. -/
theorem c8_tie_order_counterexample :
    actionsOf [(incActA, 1), (incActB, 1)] = ["alpha", "beta"] ∧
    (∀ a, a ∈ (["beta", "alpha"] : List String) ↔
      a ∈ actionsOf [(incActA, 1), (incActB, 1)]) ∧
    (["alpha", "beta"] : List String).count "alpha" =
      (["alpha", "beta"] : List String).count "beta" ∧
    _generate_action_from_similar Severity.P1 Category.INTEGRATION_FAILURE
        [(incActA, 1), (incActB, 1)] "fb" ["beta", "alpha"] =
      "beta (Based on 2 similar resolved incidents)" ∧
    "beta (Based on 2 similar resolved incidents)" ≠
      "alpha (Based on 2 similar resolved incidents)" := by
  refine ⟨by decide, ?_, by decide, by decide, by decide⟩
  intro a
  rw [show actionsOf [(incActA, 1), (incActB, 1)] = ["alpha", "beta"] from
    by decide]
  simp only [List.mem_cons, List.not_mem_nil, or_false]
  tauto

/-- **C8 (amended).** On the retrieval-augmented path: when no neighbor has
a (non-empty) suggested action, the rule-based action is returned
unchanged; when some neighbor has one, the refined action is SOME maximal-
count action among the neighbors' actions — which one among ties depends on
the unspecified iteration order of the Python `set` — followed by the note
that it is based on N similar resolved incidents (N the number of
neighbors).  `setOrder` ranges over the possible enumerations of
`set(actions)`. -/
theorem c8_action_from_similar_spec (severity : Severity) (category : Category)
    (similar_incidents : List (IncidentResponse × ℚ)) (fallback_action : String)
    (setOrder : List String)
    (hmem : ∀ a, a ∈ setOrder ↔ a ∈ actionsOf similar_incidents) :
    (actionsOf similar_incidents = [] →
      _generate_action_from_similar severity category similar_incidents
        fallback_action setOrder = fallback_action) ∧
    (actionsOf similar_incidents ≠ [] →
      ∃ a ∈ actionsOf similar_incidents,
        (∀ b ∈ actionsOf similar_incidents,
          (actionsOf similar_incidents).count b ≤
            (actionsOf similar_incidents).count a) ∧
        _generate_action_from_similar severity category similar_incidents
          fallback_action setOrder =
          a ++ " (Based on " ++ toString similar_incidents.length ++
            " similar resolved incidents)") := by
  constructor
  · intro hA
    simp only [_generate_action_from_similar]
    by_cases hs : similar_incidents.isEmpty
    · rw [if_pos hs]
    · rw [if_neg hs]
      simp [hA]
  · intro hA
    have hsne : ¬ similar_incidents.isEmpty = true := by
      intro hc
      apply hA
      rw [List.isEmpty_iff.mp hc]
      rfl
    obtain ⟨a0, ha0⟩ : ∃ a0, a0 ∈ actionsOf similar_incidents :=
      List.exists_mem_of_ne_nil _ hA
    obtain ⟨s0, srest, hs0⟩ : ∃ s0 srest, setOrder = s0 :: srest := by
      cases hso : setOrder with
      | nil =>
        have := (hmem a0).mpr ha0
        rw [hso] at this
        exact absurd this (List.not_mem_nil _)
      | cons s0 srest => exact ⟨s0, srest, rfl⟩
    have hAe : ¬ (actionsOf similar_incidents).isEmpty = true := by
      intro hc
      exact hA (List.isEmpty_iff.mp hc)
    simp only [_generate_action_from_similar]
    rw [if_neg hsne, if_neg hAe, hs0]
    obtain ⟨hmemM, hleM⟩ := maxByCount_spec (actionsOf similar_incidents) srest s0
    refine ⟨maxByCount (actionsOf similar_incidents) s0 srest, ?_, ?_, rfl⟩
    · apply (hmem _).mp
      rw [hs0]
      exact hmemM
    · intro b hb
      exact hleM b (by rw [← hs0]; exact (hmem b).mpr hb)

/-- Witness for C8 (amended) at the concrete tie input. -/
theorem c8_action_from_similar_witness :
    ∃ a ∈ actionsOf [(incActA, 1), (incActB, 1)],
      (∀ b ∈ actionsOf [(incActA, 1), (incActB, 1)],
        (actionsOf [(incActA, 1), (incActB, 1)]).count b ≤
          (actionsOf [(incActA, 1), (incActB, 1)]).count a) ∧
      _generate_action_from_similar Severity.P1 Category.INTEGRATION_FAILURE
          [(incActA, 1), (incActB, 1)] "fb" ["beta", "alpha"] =
        a ++ " (Based on " ++
          toString ([(incActA, 1), (incActB, 1)] :
            List (IncidentResponse × ℚ)).length ++
          " similar resolved incidents)" := by
  refine (c8_action_from_similar_spec Severity.P1 Category.INTEGRATION_FAILURE
    [(incActA, 1), (incActB, 1)] "fb" ["beta", "alpha"] ?_).2 ?_
  · intro a
    rw [show actionsOf [(incActA, 1), (incActB, 1)] = ["alpha", "beta"] from
      by decide]
    simp only [List.mem_cons, List.not_mem_nil, or_false]
    tauto
  · rw [show actionsOf [(incActA, 1), (incActB, 1)] = ["alpha", "beta"] from
      by decide]
    simp
